import Mathlib

/- Shallow embedding of the btester trading engine (src/btester/btester.py)
and of its near-identical duplicate package (src/btlib/btlib.py).

Modelling conventions:
- Python floats are idealized as exact rationals extended with a NaN element
  (type EF).  Arithmetic involving NaN yields NaN; ordered comparisons with
  NaN are false, as in Python.  Float division by zero raises
  ZeroDivisionError in Python and is modelled as an explicit error.
- Python exceptions are modelled explicitly: fallible operations return an
  Except value whose error carries the state at the moment the exception
  escapes, since Python leaves the mutations made so far in place.
- The engine state embedded in the Strategy object (date, cash, commission,
  returns, trades, open_positions, cumulative_return, cash_stock_value) is
  the State structure.  The historical data (records, index) is read-only
  input of the run loop and is passed as a parameter; the data and symbols
  attributes, which the engine logic never consults, are omitted.
- The user-supplied hooks init and next are arbitrary state transformers
  passed as functions.
- Python lists hold object references and Position dataclasses are mutated
  in place; list.remove compares by field equality.  The in-place update of
  an aliased position followed by removal is modelled by replaceFirst
  followed by removeFirst (first occurrence, field equality), matching
  list.remove, which raises ValueError when no equal element exists.
-/

deriving instance DecidableEq for Except

/-- Python exceptions the embedded code can raise. -/
inductive PyErr where
  | valueError : PyErr
  | zeroDivisionError : PyErr
  | keyError : PyErr
  | indexError : PyErr
deriving DecidableEq

/-- A Python float, idealized: NaN or an exact rational. -/
inductive EF where
  | nan : EF
  | val : ℚ → EF
deriving DecidableEq

namespace EF

/-- math.isnan. -/
def isnan : EF → Bool
  | nan => true
  | val _ => false

/-- Python float addition: NaN propagates. -/
def add : EF → EF → EF
  | val a, val b => val (a + b)
  | _, _ => nan

/-- Python float subtraction: NaN propagates. -/
def sub : EF → EF → EF
  | val a, val b => val (a - b)
  | _, _ => nan

/-- Python float multiplication: NaN propagates. -/
def mul : EF → EF → EF
  | val a, val b => val (a * b)
  | _, _ => nan

/-- Python float comparison x <= y: false when either side is NaN. -/
def le : EF → EF → Bool
  | val a, val b => decide (a ≤ b)
  | _, _ => false

/-- Python float comparison x < y: false when either side is NaN. -/
def lt : EF → EF → Bool
  | val a, val b => decide (a < b)
  | _, _ => false

/-- Python float division: raises ZeroDivisionError on a zero divisor
(regardless of the numerator), otherwise NaN propagates. -/
def div : EF → EF → Except PyErr EF
  | a, val b =>
    if b = 0 then .error .zeroDivisionError
    else
      match a with
      | val a2 => .ok (val (a2 / b))
      | nan => .ok nan
  | _, nan => .ok nan

end EF

/-- Timestamps are opaque to the engine; modelled as naturals. -/
abbrev Date := Nat

/-- The Position dataclass: an open exposure to one instrument. -/
structure Position where
  symbol : Option String := none
  open_date : Option Date := none
  last_date : Option Date := none
  open_price : EF := EF.nan
  last_price : EF := EF.nan
  position_size : EF := EF.nan
  profit_loss : EF := EF.nan
  change_pct : EF := EF.nan
  current_value : EF := EF.nan
deriving DecidableEq

/-- The Trade dataclass: an immutable record of a completed round trip. -/
structure Trade where
  symbol : Option String := none
  open_date : Option Date := none
  close_date : Option Date := none
  open_price : EF := EF.nan
  close_price : EF := EF.nan
  position_size : EF := EF.nan
  profit_loss : EF := EF.nan
  change_pct : EF := EF.nan
  trade_commission : EF := EF.nan
  cumulative_return : EF := EF.nan
deriving DecidableEq

/-- One step record of the historical data, as produced by
DataFrame.to_dict.  Only the closing-price keys are consulted by the
engine: keyed s models the tuple key (s, Close), unkeyed models the plain
key Close; none means the key is absent from the record. -/
structure Record where
  keyed : Option String → Option EF
  unkeyed : Option EF

/-- The mutable engine state embedded in the Strategy object. -/
structure State where
  date : Option Date
  cash : EF
  commission : EF
  returns : List EF
  trades : List Trade
  open_positions : List Position
  cumulative_return : EF
  cash_stock_value : EF
deriving DecidableEq

/-- The Result dataclass returned by a run: the equity series (a pandas
Series, modelled as its index and data lists), the trade log, and the
remaining open positions. -/
structure Result where
  returnsIndex : List Date
  returnsData : List EF
  trades : List Trade
  open_positions : List Position
deriving DecidableEq

/-- The Backtest driver: initial cash, commission rate, and the record
sequence with its timestamp index (extracted from the DataFrame). -/
structure Backtest where
  cash : EF
  commission : EF
  records : List Record
  index : List Date

/-- Replace the first occurrence (by field equality) of a in the list by b;
models the visible effect on the open-positions list of mutating, in place,
the list element aliased by a close call's position handle. -/
def replaceFirst (a b : Position) : List Position → List Position
  | [] => []
  | x :: xs => if x = a then b :: xs else x :: replaceFirst a b xs

/-- Python list.remove: drop the first element equal to a; none models the
ValueError raised when no element is equal. -/
def removeFirst (a : Position) : List Position → Option (List Position)
  | [] => none
  | x :: xs => if x = a then some xs else Option.map (fun ys => x :: ys) (removeFirst a xs)

namespace btester

/-- Position.update (src/btester/btester.py lines 37-42): recompute the
derived fields from a new observation.  The error value carries the
partially assigned position, since Python assigns last_date, last_price and
profit_loss before the division that can raise ZeroDivisionError. -/
def Position.update (p : Position) (last_date : Option Date) (last_price : EF) :
    Except (PyErr × Position) Position :=
  let p1 : Position := { p with last_date := last_date, last_price := last_price }
  let p2 : Position := { p1 with profit_loss := (p1.last_price.sub p1.open_price).mul p1.position_size }
  match p2.last_price.div p2.open_price with
  | .error e => .error (e, p2)
  | .ok r =>
    let p3 : Position := { p2 with change_pct := (r.sub (EF.val 1)).mul (EF.val 100) }
    .ok { p3 with current_value := (p3.open_price.mul p3.position_size).add p3.profit_loss }

/-- Size and cost resolution inside Strategy.open (lines 158-162): with no
size given, size = cash / (price * (1 + commission)) and the cost is the
whole cash balance; with a size given, cost = size * price * (1 + commission). -/
def resolveSize (st : State) (price : EF) (size : Option EF) : Except PyErr (EF × EF) :=
  match size with
  | none => (EF.div st.cash (price.mul ((EF.val 1).add st.commission))).map (fun s => (s, st.cash))
  | some s => .ok (s, (s.mul price).mul ((EF.val 1).add st.commission))

/-- Strategy.open (lines 139-174); named opn because open is a Lean keyword.
Validates price and size, resolves the size and cost, and on success appends
a freshly marked position, debits the cost from cash and credits the
mark-to-market accumulator. -/
def Strategy.opn (st : State) (price : EF) (size : Option EF) (symbol : Option String) :
    Except (PyErr × State) (Bool × State) :=
  if price.isnan || price.le (EF.val 0)
      || (match size with | some s => s.isnan || s.le (EF.val 0) | none => false) then
    .ok (false, st)
  else
    match resolveSize st price size with
    | .error e => .error (e, st)
    | .ok (sz, open_cost) =>
      if sz.isnan || sz.le (EF.val 0) || st.cash.lt open_cost then
        .ok (false, st)
      else
        let p0 : Position := { symbol := symbol, open_date := st.date,
                               open_price := price, position_size := sz }
        match Position.update p0 st.date price with
        | .error (e, _) => .error (e, st)
        | .ok p =>
          .ok (true, { st with
            cash_stock_value := st.cash_stock_value.add p.current_value,
            cash := st.cash.sub open_cost,
            open_positions := st.open_positions ++ [p] })

/-- The explicit-position branch of Strategy.close (lines 200-215): debit the
accumulator by the stale value, re-mark the position at the close price,
record the trade, remove the position from the open set (ValueError when no
equal element is present), and credit cash net of the closing commission. -/
def closeExplicit (st : State) (price : EF) (p : Position) :
    Except (PyErr × State) State :=
  let st1 : State := { st with cash_stock_value := st.cash_stock_value.sub p.current_value }
  match Position.update p st.date price with
  | .error (e, pPart) =>
    .error (e, { st1 with open_positions := replaceFirst p pPart st1.open_positions })
  | .ok p2 =>
    let st2 : State := { st1 with open_positions := replaceFirst p p2 st1.open_positions }
    let tc := ((p2.open_price.add p2.last_price).mul p2.position_size).mul st.commission
    let cr := st.cumulative_return.add (p2.profit_loss.sub tc)
    let trade : Trade := { symbol := p2.symbol, open_date := p2.open_date,
                           close_date := p2.last_date, open_price := p2.open_price,
                           close_price := p2.last_price, position_size := p2.position_size,
                           profit_loss := p2.profit_loss, change_pct := p2.change_pct,
                           trade_commission := tc, cumulative_return := cr }
    let st3 : State := { st2 with cumulative_return := cr, trades := st2.trades ++ [trade] }
    match removeFirst p2 st3.open_positions with
    | none => .error (.valueError, st3)
    | some lst =>
      let close_cost := (p2.last_price.mul p2.position_size).mul st.commission
      .ok { st3 with open_positions := lst,
                     cash := st.cash.add (p2.current_value.sub close_cost) }

/-- The recursive self.close(position=q, price=price) call made by the
symbol-filter loop: the price guard re-checked, then the explicit branch. -/
def closeInner (st : State) (price : EF) (p : Position) :
    Except (PyErr × State) (Bool × State) :=
  if price.isnan || price.le (EF.val 0) then .ok (false, st)
  else (closeExplicit st price p).map (fun st2 => (true, st2))

/-- The symbol-filter loop of Strategy.close (lines 196-199): iterate over a
snapshot of the open positions and close each one whose symbol matches. -/
def closeLoop (price : EF) (symbol : Option String) :
    List Position → State → Except (PyErr × State) State
  | [], st => .ok st
  | p :: ps, st =>
    if p.symbol = symbol then
      match closeInner st price p with
      | .error es => .error es
      | .ok (_, st2) => closeLoop price symbol ps st2
    else closeLoop price symbol ps st

/-- Strategy.close (lines 176-217): price guard, then either the explicit
position branch or the symbol-filter loop over a snapshot of the open set. -/
def Strategy.close (st : State) (price : EF) (symbol : Option String) (pos : Option Position) :
    Except (PyErr × State) (Bool × State) :=
  match pos with
  | some p => closeInner st price p
  | none =>
    if price.isnan || price.le (EF.val 0) then .ok (false, st)
    else (closeLoop price symbol st.open_positions st).map (fun st2 => (true, st2))

/-- The closing-price lookup of the run loop (line 231): the per-instrument
tuple key if present, else the shared Close key, else KeyError. -/
def lookupClose (r : Record) (s : Option String) : Except PyErr EF :=
  match r.keyed s with
  | some v => .ok v
  | none =>
    match r.unkeyed with
    | some v => .ok v
    | none => .error .keyError

/-- Per-position mark-to-market of one step (lines 230-233): update only when
the looked-up price is strictly positive; otherwise the position keeps its
previous fields.  The error value carries the position as left behind. -/
def markOne (d : Option Date) (r : Record) (p : Position) :
    Except (PyErr × Position) Position :=
  match lookupClose r p.symbol with
  | .error e => .error (e, p)
  | .ok lp => if (EF.val 0).lt lp then Position.update p d lp else .ok p

/-- Mark every open position for one step, in list order; an error carries
the list with the already processed prefix updated in place. -/
def markAll (d : Option Date) (r : Record) :
    List Position → Except (PyErr × List Position) (List Position)
  | [] => .ok []
  | p :: ps =>
    match markOne d r p with
    | .error (e, p2) => .error (e, p2 :: ps)
    | .ok p2 =>
      match markAll d r ps with
      | .error (e, ps2) => .error (e, p2 :: ps2)
      | .ok ps2 => .ok (p2 :: ps2)

/-- sum(position.current_value for position in self.open_positions), a left
fold starting from 0 as in Python's sum. -/
def sumCurrentValue (l : List Position) : EF :=
  l.foldl (fun acc p => acc.add p.current_value) (EF.val 0)

/-- One iteration of the run loop (lines 225-236): set the current date from
the index (IndexError when the index is too short), run the decision hook,
mark every open position at the date the hook left in place, recompute the
accumulator and append the step equity to the returns series. -/
def step (hook : Nat → Record → State → State) (index : List Date) (i : Nat)
    (r : Record) (st : State) : Except (PyErr × State) State :=
  match index[i]? with
  | none => .error (.indexError, st)
  | some d =>
    let st1 := hook i r { st with date := some d }
    match markAll st1.date r st1.open_positions with
    | .error (e, ps) => .error (e, { st1 with open_positions := ps })
    | .ok ps =>
      let csv := sumCurrentValue ps
      .ok { st1 with open_positions := ps, cash_stock_value := csv,
                     returns := st1.returns ++ [st1.cash.add csv] }

/-- The enumerate loop of Strategy.__eval: run step after step in order. -/
def runSteps (hook : Nat → Record → State → State) (index : List Date) :
    List Record → Nat → State → Except (PyErr × State) State
  | [], _, st => .ok st
  | r :: rs, i, st =>
    match step hook index i r st with
    | .error es => .error es
    | .ok st2 => runSteps hook index rs (i + 1) st2

/-- Strategy.__eval (lines 219-242): reset the cumulative return to the cash
balance and the accumulator to zero, run the init hook, run every step, and
assemble the Result; building the pandas Series raises ValueError when the
returns and index lengths differ. -/
def Strategy.eval (initHook : State → State) (nextHook : Nat → Record → State → State)
    (records : List Record) (index : List Date) (st : State) :
    Except (PyErr × State) Result :=
  let st0 := initHook { st with cumulative_return := st.cash, cash_stock_value := EF.val 0 }
  match runSteps nextHook index records 0 st0 with
  | .error es => .error es
  | .ok st1 =>
    if st1.returns.length = index.length then
      .ok { returnsIndex := index, returnsData := st1.returns,
            trades := st1.trades, open_positions := st1.open_positions }
    else .error (.valueError, st1)

/-- The state produced by Strategy.__init__: everything zeroed or empty. -/
def Strategy.initState : State :=
  { date := none, cash := EF.val 0, commission := EF.val 0, returns := [],
    trades := [], open_positions := [], cumulative_return := EF.val 0,
    cash_stock_value := EF.val 0 }

/-- Backtest.run (lines 275-285): build a fresh strategy state carrying the
configured cash and commission and invoke the internal eval entry point. -/
def Backtest.run (bt : Backtest) (initHook : State → State)
    (nextHook : Nat → Record → State → State) : Except (PyErr × State) Result :=
  Strategy.eval initHook nextHook bt.records bt.index
    { Strategy.initState with cash := bt.cash, commission := bt.commission }

end btester

namespace btlib

/-- Position.update (src/btlib/btlib.py lines 20-25): recompute the
derived fields from a new observation.  The error value carries the
partially assigned position, since Python assigns last_date, last_price and
profit_loss before the division that can raise ZeroDivisionError. -/
def Position.update (p : Position) (last_date : Option Date) (last_price : EF) :
    Except (PyErr × Position) Position :=
  let p1 : Position := { p with last_date := last_date, last_price := last_price }
  let p2 : Position := { p1 with profit_loss := (p1.last_price.sub p1.open_price).mul p1.position_size }
  match p2.last_price.div p2.open_price with
  | .error e => .error (e, p2)
  | .ok r =>
    let p3 : Position := { p2 with change_pct := (r.sub (EF.val 1)).mul (EF.val 100) }
    .ok { p3 with current_value := (p3.open_price.mul p3.position_size).add p3.profit_loss }

/-- Size and cost resolution inside Strategy.open (btlib lines 78-82): with no
size given, size = cash / (price * (1 + commission)) and the cost is the
whole cash balance; with a size given, cost = size * price * (1 + commission). -/
def resolveSize (st : State) (price : EF) (size : Option EF) : Except PyErr (EF × EF) :=
  match size with
  | none => (EF.div st.cash (price.mul ((EF.val 1).add st.commission))).map (fun s => (s, st.cash))
  | some s => .ok (s, (s.mul price).mul ((EF.val 1).add st.commission))

/-- Strategy.open (btlib lines 74-94); named opn because open is a Lean keyword.
Validates price and size, resolves the size and cost, and on success appends
a freshly marked position, debits the cost from cash and credits the
mark-to-market accumulator. -/
def Strategy.opn (st : State) (price : EF) (size : Option EF) (symbol : Option String) :
    Except (PyErr × State) (Bool × State) :=
  if price.isnan || price.le (EF.val 0)
      || (match size with | some s => s.isnan || s.le (EF.val 0) | none => false) then
    .ok (false, st)
  else
    match resolveSize st price size with
    | .error e => .error (e, st)
    | .ok (sz, open_cost) =>
      if sz.isnan || sz.le (EF.val 0) || st.cash.lt open_cost then
        .ok (false, st)
      else
        let p0 : Position := { symbol := symbol, open_date := st.date,
                               open_price := price, position_size := sz }
        match Position.update p0 st.date price with
        | .error (e, _) => .error (e, st)
        | .ok p =>
          .ok (true, { st with
            cash_stock_value := st.cash_stock_value.add p.current_value,
            cash := st.cash.sub open_cost,
            open_positions := st.open_positions ++ [p] })

/-- The explicit-position branch of Strategy.close (btlib lines 104-119): debit the
accumulator by the stale value, re-mark the position at the close price,
record the trade, remove the position from the open set (ValueError when no
equal element is present), and credit cash net of the closing commission. -/
def closeExplicit (st : State) (price : EF) (p : Position) :
    Except (PyErr × State) State :=
  let st1 : State := { st with cash_stock_value := st.cash_stock_value.sub p.current_value }
  match Position.update p st.date price with
  | .error (e, pPart) =>
    .error (e, { st1 with open_positions := replaceFirst p pPart st1.open_positions })
  | .ok p2 =>
    let st2 : State := { st1 with open_positions := replaceFirst p p2 st1.open_positions }
    let tc := ((p2.open_price.add p2.last_price).mul p2.position_size).mul st.commission
    let cr := st.cumulative_return.add (p2.profit_loss.sub tc)
    let trade : Trade := { symbol := p2.symbol, open_date := p2.open_date,
                           close_date := p2.last_date, open_price := p2.open_price,
                           close_price := p2.last_price, position_size := p2.position_size,
                           profit_loss := p2.profit_loss, change_pct := p2.change_pct,
                           trade_commission := tc, cumulative_return := cr }
    let st3 : State := { st2 with cumulative_return := cr, trades := st2.trades ++ [trade] }
    match removeFirst p2 st3.open_positions with
    | none => .error (.valueError, st3)
    | some lst =>
      let close_cost := (p2.last_price.mul p2.position_size).mul st.commission
      .ok { st3 with open_positions := lst,
                     cash := st.cash.add (p2.current_value.sub close_cost) }

/-- The recursive self.close(position=q, price=price) call made by the
symbol-filter loop: the price guard re-checked, then the explicit branch. -/
def closeInner (st : State) (price : EF) (p : Position) :
    Except (PyErr × State) (Bool × State) :=
  if price.isnan || price.le (EF.val 0) then .ok (false, st)
  else (closeExplicit st price p).map (fun st2 => (true, st2))

/-- The symbol-filter loop of Strategy.close (btlib lines 100-103): iterate over a
snapshot of the open positions and close each one whose symbol matches. -/
def closeLoop (price : EF) (symbol : Option String) :
    List Position → State → Except (PyErr × State) State
  | [], st => .ok st
  | p :: ps, st =>
    if p.symbol = symbol then
      match closeInner st price p with
      | .error es => .error es
      | .ok (_, st2) => closeLoop price symbol ps st2
    else closeLoop price symbol ps st

/-- Strategy.close (btlib lines 96-121): price guard, then either the explicit
position branch or the symbol-filter loop over a snapshot of the open set. -/
def Strategy.close (st : State) (price : EF) (symbol : Option String) (pos : Option Position) :
    Except (PyErr × State) (Bool × State) :=
  match pos with
  | some p => closeInner st price p
  | none =>
    if price.isnan || price.le (EF.val 0) then .ok (false, st)
    else (closeLoop price symbol st.open_positions st).map (fun st2 => (true, st2))

/-- The closing-price lookup of the run loop (btlib line 135): the per-instrument
tuple key if present, else the shared Close key, else KeyError. -/
def lookupClose (r : Record) (s : Option String) : Except PyErr EF :=
  match r.keyed s with
  | some v => .ok v
  | none =>
    match r.unkeyed with
    | some v => .ok v
    | none => .error .keyError

/-- Per-position mark-to-market of one step (btlib lines 134-137): update only when
the looked-up price is strictly positive; otherwise the position keeps its
previous fields.  The error value carries the position as left behind. -/
def markOne (d : Option Date) (r : Record) (p : Position) :
    Except (PyErr × Position) Position :=
  match lookupClose r p.symbol with
  | .error e => .error (e, p)
  | .ok lp => if (EF.val 0).lt lp then Position.update p d lp else .ok p

/-- Mark every open position for one step, in list order; an error carries
the list with the already processed prefix updated in place. -/
def markAll (d : Option Date) (r : Record) :
    List Position → Except (PyErr × List Position) (List Position)
  | [] => .ok []
  | p :: ps =>
    match markOne d r p with
    | .error (e, p2) => .error (e, p2 :: ps)
    | .ok p2 =>
      match markAll d r ps with
      | .error (e, ps2) => .error (e, p2 :: ps2)
      | .ok ps2 => .ok (p2 :: ps2)

/-- sum(position.current_value for position in self.open_positions), a left
fold starting from 0 as in Python's sum. -/
def sumCurrentValue (l : List Position) : EF :=
  l.foldl (fun acc p => acc.add p.current_value) (EF.val 0)

/-- One iteration of the run loop (btlib lines 129-140): set the current date from
the index (IndexError when the index is too short), run the decision hook,
mark every open position at the date the hook left in place, recompute the
accumulator and append the step equity to the returns series. -/
def step (hook : Nat → Record → State → State) (index : List Date) (i : Nat)
    (r : Record) (st : State) : Except (PyErr × State) State :=
  match index[i]? with
  | none => .error (.indexError, st)
  | some d =>
    let st1 := hook i r { st with date := some d }
    match markAll st1.date r st1.open_positions with
    | .error (e, ps) => .error (e, { st1 with open_positions := ps })
    | .ok ps =>
      let csv := sumCurrentValue ps
      .ok { st1 with open_positions := ps, cash_stock_value := csv,
                     returns := st1.returns ++ [st1.cash.add csv] }

/-- The enumerate loop of Strategy._eval: run step after step in order. -/
def runSteps (hook : Nat → Record → State → State) (index : List Date) :
    List Record → Nat → State → Except (PyErr × State) State
  | [], _, st => .ok st
  | r :: rs, i, st =>
    match step hook index i r st with
    | .error es => .error es
    | .ok st2 => runSteps hook index rs (i + 1) st2

/-- Strategy._eval (btlib lines 123-146): reset the cumulative return to the cash
balance and the accumulator to zero, run the init hook, run every step, and
assemble the Result; building the pandas Series raises ValueError when the
returns and index lengths differ. -/
def Strategy.eval (initHook : State → State) (nextHook : Nat → Record → State → State)
    (records : List Record) (index : List Date) (st : State) :
    Except (PyErr × State) Result :=
  let st0 := initHook { st with cumulative_return := st.cash, cash_stock_value := EF.val 0 }
  match runSteps nextHook index records 0 st0 with
  | .error es => .error es
  | .ok st1 =>
    if st1.returns.length = index.length then
      .ok { returnsIndex := index, returnsData := st1.returns,
            trades := st1.trades, open_positions := st1.open_positions }
    else .error (.valueError, st1)

/-- The state produced by Strategy.__init__: everything zeroed or empty. -/
def Strategy.initState : State :=
  { date := none, cash := EF.val 0, commission := EF.val 0, returns := [],
    trades := [], open_positions := [], cumulative_return := EF.val 0,
    cash_stock_value := EF.val 0 }

/-- Backtest.run (btlib lines 168-178): build a fresh strategy state carrying the
configured cash and commission and invoke the internal eval entry point. -/
def Backtest.run (bt : Backtest) (initHook : State → State)
    (nextHook : Nat → Record → State → State) : Except (PyErr × State) Result :=
  Strategy.eval initHook nextHook bt.records bt.index
    { Strategy.initState with cash := bt.cash, commission := bt.commission }

end btlib

/-- The projection of a position onto the fields Position.update leaves
unchanged; the updated variant of a position is fully determined by this key
together with the new date and price, so two positions can collide under
close's remove step only when their keys agree. -/
def posKey (p : Position) : Option String × Option Date × EF × EF :=
  (p.symbol, p.open_date, p.open_price, p.position_size)

/-- The run-loop trajectory: stepChain hook index i rs st sts holds when the
loop, started at state st, visits the records rs in order at indices
i, i + 1, ..., every step succeeding, with sts the successive post-step
states. -/
def stepChain (hook : Nat → Record → State → State) (index : List Date) :
    Nat → List Record → State → List State → Prop
  | _, [], _, sts => sts = []
  | i, r :: rs, st, sts =>
    match sts with
    | [] => False
    | s1 :: rest =>
      btester.step hook index i r st = .ok s1 ∧ stepChain hook index (i + 1) rs s1 rest

/-- A record providing no closing price under any key. -/
def recNone : Record := { keyed := fun _ => none, unkeyed := none }

/-- A single-instrument record whose shared Close key holds the price q. -/
def recClose (q : ℚ) : Record := { keyed := fun _ => none, unkeyed := some (EF.val q) }

/-- A concrete engine state used by witnesses: 10000 cash, one percent
commission, nothing open. -/
def stW : State :=
  { btester.Strategy.initState with cash := EF.val 10000, commission := EF.val (1 / 100) }

/-- A concrete open position used by witnesses and counterexamples. -/
def posW : Position :=
  { symbol := some "A", open_date := some 0, last_date := some 0, open_price := EF.val 100,
    last_price := EF.val 100, position_size := EF.val 10, profit_loss := EF.val 0,
    change_pct := EF.val 0, current_value := EF.val 1000 }

/-- The trade record built by close from the updated position p2 and the
engine's commission rate c0 and incoming cumulative return r0. -/
def mkTrade (p2 : Position) (c0 r0 : EF) : Trade :=
  { symbol := p2.symbol, open_date := p2.open_date, close_date := p2.last_date,
    open_price := p2.open_price, close_price := p2.last_price,
    position_size := p2.position_size, profit_loss := p2.profit_loss,
    change_pct := p2.change_pct,
    trade_commission := ((p2.open_price.add p2.last_price).mul p2.position_size).mul c0,
    cumulative_return := r0.add (p2.profit_loss.sub
      (((p2.open_price.add p2.last_price).mul p2.position_size).mul c0)) }

/-- stW with one open position, used by close witnesses. -/
def stP : State := { stW with open_positions := [posW] }

/-- posW as left by Position.update at date none and price 200. -/
def posW2 : Position :=
  { posW with last_date := none, last_price := EF.val 200, profit_loss := EF.val 1000,
              change_pct := EF.val 100, current_value := EF.val 2000 }

/-- The state produced by opening 10 units at price 100 from stW. -/
def stOpnW : State :=
  { stW with cash := EF.val 8990, cash_stock_value := EF.val 1000,
             open_positions := [{ symbol := none, open_date := none, last_date := none,
                                  open_price := EF.val 100, last_price := EF.val 100,
                                  position_size := EF.val 10, profit_loss := EF.val 0,
                                  change_pct := EF.val 0, current_value := EF.val 1000 }] }

/-- The state produced by closing posW from stP at price 200. -/
def stCloseW : State :=
  { stP with cash := EF.val 11980, cash_stock_value := EF.val (-1000),
             cumulative_return := EF.val 970, open_positions := [],
             trades := [{ symbol := some "A", open_date := some 0, close_date := none,
                          open_price := EF.val 100, close_price := EF.val 200,
                          position_size := EF.val 10, profit_loss := EF.val 1000,
                          change_pct := EF.val 100, trade_commission := EF.val 30,
                          cumulative_return := EF.val 970 }] }

/-- posW as left by Position.update at date none and price 150. -/
def posW150 : Position :=
  { posW with last_date := none, last_price := EF.val 150, profit_loss := EF.val 500,
              change_pct := EF.val 50, current_value := EF.val 1500 }

/-- The one-step run result used by the run-loop witness. -/
def resW : Result := { returnsIndex := [3], returnsData := [EF.val 10000],
                       trades := [], open_positions := [] }

/-! Helper lemmas. -/

@[simp]
theorem EF.isnan_val (q : ℚ) : (EF.val q).isnan = false := rfl

@[simp]
theorem EF.isnan_nan : EF.nan.isnan = true := rfl

@[simp]
theorem EF.le_val_val (a b : ℚ) : (EF.val a).le (EF.val b) = decide (a ≤ b) := rfl

@[simp]
theorem EF.le_nan_left (x : EF) : EF.nan.le x = false := by cases x <;> rfl

@[simp]
theorem EF.lt_val_val (a b : ℚ) : (EF.val a).lt (EF.val b) = decide (a < b) := rfl

@[simp]
theorem EF.lt_nan_left (x : EF) : EF.nan.lt x = false := by cases x <;> rfl

@[simp]
theorem EF.lt_nan_right (x : EF) : x.lt EF.nan = false := by cases x <;> rfl

@[simp]
theorem EF.add_val_val (a b : ℚ) : (EF.val a).add (EF.val b) = EF.val (a + b) := rfl

@[simp]
theorem EF.sub_val_val (a b : ℚ) : (EF.val a).sub (EF.val b) = EF.val (a - b) := rfl

@[simp]
theorem EF.mul_val_val (a b : ℚ) : (EF.val a).mul (EF.val b) = EF.val (a * b) := rfl

theorem EF.div_val_ne_zero (a : EF) (b : ℚ) (hb : b ≠ 0) :
    a.div (EF.val b) = .ok (match a with | EF.val a2 => EF.val (a2 / b) | EF.nan => EF.nan) := by
  cases a <;> simp [EF.div, hb]
/-! Claim C2. -/

/-- C2: validation failures are atomic no-ops.  Whenever a validation
condition holds (price NaN or nonpositive; a given size NaN or nonpositive;
a resolved size NaN or nonpositive, or cash below the cost), open returns
false with the state unchanged and raises nothing; the price guard does the
same for close; and conversely every false return of open or close leaves
the state exactly as it was. -/
theorem c2_validation_failures_are_noops
    (st : State) (price : EF) (size : Option EF) (symbol : Option String)
    (pos : Option Position) :
    ((price.isnan || price.le (EF.val 0)
        || (match size with | some s => s.isnan || s.le (EF.val 0) | none => false)) = true →
      btester.Strategy.opn st price size symbol = .ok (false, st))
    ∧ (∀ sz cost, btester.resolveSize st price size = .ok (sz, cost) →
        (sz.isnan || sz.le (EF.val 0) || st.cash.lt cost) = true →
        btester.Strategy.opn st price size symbol = .ok (false, st))
    ∧ ((price.isnan || price.le (EF.val 0)) = true →
        btester.Strategy.close st price symbol pos = .ok (false, st))
    ∧ (∀ b st2, btester.Strategy.opn st price size symbol = .ok (b, st2) → b = false → st2 = st)
    ∧ (∀ b st2, btester.Strategy.close st price symbol pos = .ok (b, st2) → b = false →
        st2 = st) := by
  refine ⟨?_, ?_, ?_, ?_, ?_⟩
  · intro h
    simp [btester.Strategy.opn, h]
  · intro sz cost hres h2
    simp only [btester.Strategy.opn]
    split
    · rfl
    · rw [hres]
      simp [h2]
  · intro h
    cases pos with
    | some p => simp [btester.Strategy.close, btester.closeInner, h]
    | none => simp [btester.Strategy.close, h]
  · intro b st2 hres hb
    subst hb
    revert hres
    simp only [btester.Strategy.opn]
    split
    · intro h; cases h; rfl
    · split
      · intro h; cases h
      · split
        · intro h; cases h; rfl
        · split
          · intro h; cases h
          · intro h; cases h
  · intro b st2 hres hb
    subst hb
    cases pos with
    | some p =>
      revert hres
      simp only [btester.Strategy.close, btester.closeInner]
      split
      · intro h; cases h; rfl
      · intro h
        rcases hE : btester.closeExplicit st price p with e | s <;> rw [hE] at h <;>
          simp [Except.map] at h
    | none =>
      revert hres
      simp only [btester.Strategy.close]
      split
      · intro h; cases h; rfl
      · intro h
        rcases hE : btester.closeLoop price symbol st.open_positions st with e | s <;>
          rw [hE] at h <;> simp [Except.map] at h

/-- Witness for C2 at concrete inputs: a negative price makes open report
false and leave the 10000-cash state untouched, and a NaN price does the
same for close. -/
theorem c2_validation_failures_are_noops_witness :
    btester.Strategy.opn stW (EF.val (-5)) none none = .ok (false, stW) ∧
    btester.Strategy.close stW EF.nan none none = .ok (false, stW) :=
  ⟨(c2_validation_failures_are_noops stW (EF.val (-5)) none none none).1 (by decide),
   (c2_validation_failures_are_noops stW EF.nan none none none).2.2.1 (by decide)⟩

/-- Closed form of Position.update when the new price and the open price are
real and the open price is nonzero (so the division cannot raise). -/
theorem btester_update_val (p : Position) (d : Option Date) (q po : ℚ)
    (hpo : p.open_price = EF.val po) (hne : po ≠ 0) :
    btester.Position.update p d (EF.val q) = .ok
      { p with last_date := d, last_price := EF.val q,
               profit_loss := (EF.val (q - po)).mul p.position_size,
               change_pct := EF.val ((q / po - 1) * 100),
               current_value := ((EF.val po).mul p.position_size).add
                 ((EF.val (q - po)).mul p.position_size) } := by
  simp [btester.Position.update, hpo, EF.div, hne]

/-! Claim C9. -/

/-- C9: with the size argument omitted, open fails (returning false, state
unchanged) whenever the cash balance is nonpositive or NaN, for any price
and any nonnegative real commission rate: the resolved size
cash / (price * (1 + commission)) is then nonpositive or NaN, so no
position can be opened from an empty or negative cash balance without an
explicit size. -/
theorem c9_opn_without_size_fails_on_empty_cash
    (st : State) (price : EF) (symbol : Option String) (k : ℚ)
    (hk : st.commission = EF.val k) (hk0 : 0 ≤ k)
    (hcash : (∃ c : ℚ, st.cash = EF.val c ∧ c ≤ 0) ∨ st.cash = EF.nan) :
    btester.Strategy.opn st price none symbol = .ok (false, st) := by
  cases price with
  | nan => simp [btester.Strategy.opn]
  | val q =>
    rcases le_or_lt q 0 with hq | hq
    · simp [btester.Strategy.opn, hq]
    · have hdenom : (0 : ℚ) < q * (1 + k) := mul_pos hq (by linarith)
      have hne : q * (1 + k) ≠ 0 := ne_of_gt hdenom
      rcases hcash with ⟨c, hc, hc0⟩ | hc
      · have hle : c / (q * (1 + k)) ≤ 0 := div_nonpos_of_nonpos_of_nonneg hc0 (le_of_lt hdenom)
        simp [btester.Strategy.opn, btester.resolveSize, hk, hc, hq.not_le,
          EF.div, hne, hle, Except.map]
      · simp [btester.Strategy.opn, btester.resolveSize, hk, hc, hq.not_le,
          EF.div, hne, Except.map]

/-- Witness for C9: zero cash, price 100, one percent commission. -/
theorem c9_opn_without_size_fails_on_empty_cash_witness :
    btester.Strategy.opn { stW with cash := EF.val 0 } (EF.val 100) none none
      = .ok (false, { stW with cash := EF.val 0 }) :=
  c9_opn_without_size_fails_on_empty_cash { stW with cash := EF.val 0 } (EF.val 100) none
    (1 / 100) rfl (by norm_num) (Or.inl ⟨0, rfl, le_refl 0⟩)

/-! Claim C4. -/

/-- C4: open with the size omitted, a positive real price, positive real
cash and a nonnegative real commission rate always succeeds, the new
position's size is cash / (price * (1 + commission)), and the cash balance
is exactly zero afterwards (exactly, in the idealized exact arithmetic). -/
theorem c4_opn_size_omitted_spends_all_cash
    (st : State) (symbol : Option String) (q c k : ℚ)
    (hc : st.cash = EF.val c) (hcpos : 0 < c)
    (hk : st.commission = EF.val k) (hk0 : 0 ≤ k) (hq : 0 < q) :
    ∃ st2 p,
      btester.Strategy.opn st (EF.val q) none symbol = .ok (true, st2) ∧
      st2.open_positions = st.open_positions ++ [p] ∧
      p.position_size = EF.val (c / (q * (1 + k))) ∧
      st2.cash = EF.val 0 := by
  have hdenom : (0 : ℚ) < q * (1 + k) := mul_pos hq (by linarith)
  have hne : q * (1 + k) ≠ 0 := ne_of_gt hdenom
  have hsz : 0 < c / (q * (1 + k)) := div_pos hcpos hdenom
  simp only [btester.Strategy.opn, btester.resolveSize, hc, hk,
    EF.mul_val_val, EF.add_val_val, EF.isnan_val, EF.le_val_val, EF.lt_val_val,
    EF.div, hne, Except.map, btester.Position.update, EF.sub_val_val,
    hq.not_le, hsz.not_le, hq.ne', lt_self_iff_false, decide_False,
    Bool.or_false, Bool.false_or, if_false, ite_false, Bool.or_self,
    if_neg, reduceIte]
  exact ⟨_, _, rfl, rfl, rfl, by simp⟩

/-- Witness for C4: 10000 cash, one percent commission, price 100. -/
theorem c4_opn_size_omitted_spends_all_cash_witness :
    ∃ st2 p,
      btester.Strategy.opn stW (EF.val 100) none none = .ok (true, st2) ∧
      st2.open_positions = stW.open_positions ++ [p] ∧
      p.position_size = EF.val (10000 / (100 * (1 + 1 / 100))) ∧
      st2.cash = EF.val 0 :=
  c4_opn_size_omitted_spends_all_cash stW none 100 10000 (1 / 100) rfl (by norm_num)
    rfl (by norm_num) (by norm_num)

/-- Inversion of a successful Position.update: the identifying fields are
kept, the mark fields take the new observation, and the derived fields
follow the source formulas. -/
theorem btester_update_ok_shape (p : Position) (d : Option Date) (lp : EF) (p2 : Position)
    (h : btester.Position.update p d lp = .ok p2) :
    p2.symbol = p.symbol ∧ p2.open_date = p.open_date ∧ p2.open_price = p.open_price ∧
    p2.position_size = p.position_size ∧ p2.last_date = d ∧ p2.last_price = lp ∧
    p2.profit_loss = (lp.sub p.open_price).mul p.position_size ∧
    p2.current_value = (p.open_price.mul p.position_size).add
      ((lp.sub p.open_price).mul p.position_size) := by
  revert h
  simp only [btester.Position.update]
  split
  · intro h; cases h
  · intro h; cases h; exact ⟨rfl, rfl, rfl, rfl, rfl, rfl, rfl, rfl⟩

/-- Inversion of a successful open: the resolved size and cost, the freshly
updated position, and the exact successor state. -/
theorem btester_opn_ok_shape (st : State) (price : EF) (size : Option EF)
    (symbol : Option String) (st2 : State)
    (h : btester.Strategy.opn st price size symbol = .ok (true, st2)) :
    ∃ sz cost p,
      btester.resolveSize st price size = .ok (sz, cost) ∧
      btester.Position.update { symbol := symbol, open_date := st.date, open_price := price,
                                position_size := sz } st.date price = .ok p ∧
      st2 = { st with cash_stock_value := st.cash_stock_value.add p.current_value,
                      cash := st.cash.sub cost,
                      open_positions := st.open_positions ++ [p] } ∧
      sz.isnan = false ∧ sz.le (EF.val 0) = false ∧ st.cash.lt cost = false ∧
      price.isnan = false ∧ price.le (EF.val 0) = false := by
  revert h
  simp only [btester.Strategy.opn]
  split
  · intro h; cases h
  · rename_i hguard
    split
    · intro h; cases h
    · rename_i sz cost hres
      split
      · intro h; cases h
      · rename_i hguard2
        split
        · intro h; cases h
        · rename_i p hupd
          intro h; cases h
          simp only [Bool.or_eq_true, not_or] at hguard hguard2
          exact ⟨sz, cost, p, hres, hupd, rfl,
            Bool.of_not_eq_true hguard2.1.1,
            Bool.of_not_eq_true hguard2.1.2,
            Bool.of_not_eq_true hguard2.2,
            Bool.of_not_eq_true hguard.1.1,
            Bool.of_not_eq_true hguard.1.2⟩

/-- Inversion of a successful explicit-position close: the updated position,
the removal result, and the exact successor state. -/
theorem btester_closeExplicit_ok_shape (st : State) (price : EF) (p : Position) (st2 : State)
    (h : btester.closeExplicit st price p = .ok st2) :
    ∃ p2 lst,
      btester.Position.update p st.date price = .ok p2 ∧
      removeFirst p2 (replaceFirst p p2 st.open_positions) = some lst ∧
      st2 = { st with
        cash_stock_value := st.cash_stock_value.sub p.current_value,
        open_positions := lst,
        cumulative_return := (mkTrade p2 st.commission st.cumulative_return).cumulative_return,
        trades := st.trades ++ [mkTrade p2 st.commission st.cumulative_return],
        cash := st.cash.add (p2.current_value.sub
          ((p2.last_price.mul p2.position_size).mul st.commission)) } := by
  revert h
  simp only [btester.closeExplicit]
  split
  · intro h; cases h
  · rename_i p2 hupd
    split
    · intro h; cases h
    · rename_i lst hrem
      intro h; cases h
      exact ⟨p2, lst, hupd, hrem, rfl⟩

/-- Inversion of an explicit-position close that reaches the removal step
and fails there: the ValueError state has the accumulator debited, the
cumulative return advanced and the trade appended, while cash and the open
set are untouched. -/
theorem btester_closeExplicit_valueError_shape (st : State) (price : EF) (p : Position)
    (p2 : Position) (hupd : btester.Position.update p st.date price = .ok p2)
    (hrem : removeFirst p2 (replaceFirst p p2 st.open_positions) = none) :
    btester.closeExplicit st price p = .error (.valueError,
      { st with
        cash_stock_value := st.cash_stock_value.sub p.current_value,
        open_positions := replaceFirst p p2 st.open_positions,
        cumulative_return := (mkTrade p2 st.commission st.cumulative_return).cumulative_return,
        trades := st.trades ++ [mkTrade p2 st.commission st.cumulative_return] }) := by
  simp only [btester.closeExplicit, hupd, hrem]
  rfl

/-! Claim C1. -/

/-- C1: cash conservation.  For every successful open with real cash and
commission, cash decreases by exactly size * price * (1 + commission) where
size is the size of the position appended; for every successful close of a
single explicit position, cash increases by exactly the position's value
after the final mark at the close price minus price * size * commission. -/
theorem c1_cash_conservation :
    (∀ (st : State) (price : EF) (size : Option EF) (symbol : Option String) (st2 : State)
       (c k : ℚ), st.cash = EF.val c → st.commission = EF.val k →
       btester.Strategy.opn st price size symbol = .ok (true, st2) →
       ∃ p, st2.open_positions = st.open_positions ++ [p] ∧
         st.cash.sub st2.cash = (p.position_size.mul price).mul ((EF.val 1).add st.commission))
    ∧ (∀ (st : State) (price : EF) (symbol : Option String) (p p2 : Position) (st2 : State)
       (c k po sz : ℚ), st.cash = EF.val c → st.commission = EF.val k →
       p.open_price = EF.val po → p.position_size = EF.val sz →
       btester.Position.update p st.date price = .ok p2 →
       btester.Strategy.close st price symbol (some p) = .ok (true, st2) →
       st2.cash.sub st.cash
         = p2.current_value.sub ((price.mul p.position_size).mul st.commission)) := by
  constructor
  · intro st price size symbol st2 c k hc hk h
    obtain ⟨sz, cost, p, hres, hupd, hst2, hsznan, hszle, hlt, hpnan, hple⟩ :=
      btester_opn_ok_shape st price size symbol st2 h
    obtain ⟨-, -, -, hps, -, -, -, -⟩ := btester_update_ok_shape _ _ _ _ hupd
    cases price with
    | nan => cases hpnan
    | val q =>
      cases size with
      | some s =>
        simp only [btester.resolveSize, Except.ok.injEq, Prod.mk.injEq] at hres
        obtain ⟨hs, hcost⟩ := hres
        subst hs
        cases s with
        | nan => cases hsznan
        | val sv =>
          cases k0 : st.commission with
          | nan => rw [k0] at hk; cases hk
          | val k2 =>
            rw [k0] at hk
            cases hk
            refine ⟨p, by rw [hst2], ?_⟩
            rw [hst2]
            simp only [hps, hc, k0, ← hcost, EF.add_val_val, EF.mul_val_val, EF.sub_val_val]
            rw [EF.val.injEq]
            ring
      | none =>
        simp only [btester.resolveSize] at hres
        rw [hc, hk] at hres
        by_cases hd : q * (1 + k) = 0
        · simp [EF.div, hd, Except.map] at hres
        · simp only [EF.mul_val_val, EF.add_val_val, EF.div, hd, if_neg,
            Except.map, Except.ok.injEq, Prod.mk.injEq, ite_false] at hres
          obtain ⟨hs, hcost⟩ := hres
          refine ⟨p, by rw [hst2], ?_⟩
          rw [hst2]
          simp only [hps, hc, hk, ← hs, ← hcost, EF.add_val_val, EF.mul_val_val, EF.sub_val_val]
          rw [EF.val.injEq]
          field_simp
          ring
  · intro st price symbol p p2 st2 c k po sz hc hk hpo hps hupd h
    simp only [btester.Strategy.close, btester.closeInner] at h
    by_cases hg : (price.isnan || price.le (EF.val 0)) = true
    · rw [if_pos hg] at h; cases h
    · rw [if_neg hg] at h
      rcases hE : btester.closeExplicit st price p with es | s2
      · rw [hE] at h; cases h
      · rw [hE] at h
        simp only [Except.map, Except.ok.injEq, Prod.mk.injEq, true_and] at h
        subst h
        obtain ⟨p2x, lst, hupdx, hrem, hshape⟩ :=
          btester_closeExplicit_ok_shape st price p s2 hE
        rw [hupd] at hupdx
        cases hupdx
        obtain ⟨-, -, hop, hpsx, -, hlp, -, hcv⟩ := btester_update_ok_shape _ _ _ _ hupd
        cases price with
        | nan => simp at hg
        | val q =>
          rw [hshape]
          simp only [hlp, hpsx, hps, hpo, hcv, hc, hk, EF.add_val_val, EF.mul_val_val,
            EF.sub_val_val]
          rw [EF.val.injEq]
          ring

/-- Witness for C1: opening 10 units at price 100 with one percent
commission debits exactly 1010 from 10000 cash, and closing posW at price
200 credits exactly its marked value 2000 minus the closing commission 20. -/
theorem c1_cash_conservation_witness :
    (∃ p, stOpnW.open_positions = stW.open_positions ++ [p] ∧
       stW.cash.sub stOpnW.cash
         = (p.position_size.mul (EF.val 100)).mul ((EF.val 1).add stW.commission)) ∧
    stCloseW.cash.sub stP.cash
      = posW2.current_value.sub (((EF.val 200).mul posW.position_size).mul stP.commission) :=
  ⟨c1_cash_conservation.1 stW (EF.val 100) (some (EF.val 10)) none stOpnW 10000 (1 / 100)
      rfl rfl (by norm_num [btester.Strategy.opn, btester.resolveSize, btester.Position.update,
        EF.div, Except.map, stW, stOpnW, btester.Strategy.initState]),
   c1_cash_conservation.2 stP (EF.val 200) none posW posW2 stCloseW 10000 (1 / 100) 100 10
      rfl rfl rfl rfl
      (by norm_num [btester.Position.update, EF.div, stP, stW, posW, posW2,
        btester.Strategy.initState])
      (by norm_num [btester.Strategy.close, btester.closeInner, btester.closeExplicit,
        btester.Position.update, EF.div, Except.map, replaceFirst, removeFirst,
        stP, stW, posW, posW2, stCloseW, btester.Strategy.initState])⟩

/-- A single inner close of the filter loop only ever appends to the trade
log. -/
theorem btester_closeInner_trades (st : State) (price : EF) (p : Position)
    (b : Bool) (st2 : State) (h : btester.closeInner st price p = .ok (b, st2)) :
    ∃ l, st2.trades = st.trades ++ l := by
  revert h
  simp only [btester.closeInner]
  split
  · intro h; cases h; exact ⟨[], by simp⟩
  · intro h
    rcases hE : btester.closeExplicit st price p with es | s2 <;> rw [hE] at h
    · cases h
    · simp only [Except.map, Except.ok.injEq, Prod.mk.injEq] at h
      obtain ⟨p2, lst, -, -, hshape⟩ := btester_closeExplicit_ok_shape st price p s2 hE
      exact ⟨[mkTrade p2 st.commission st.cumulative_return], by rw [← h.2, hshape]⟩

/-- The filter loop of close only ever appends to the trade log. -/
theorem btester_closeLoop_trades (price : EF) (symbol : Option String) :
    ∀ (ps : List Position) (st st2 : State),
      btester.closeLoop price symbol ps st = .ok st2 → ∃ l, st2.trades = st.trades ++ l := by
  intro ps
  induction ps with
  | nil =>
    intro st st2 h
    cases h
    exact ⟨[], by simp⟩
  | cons p ps ih =>
    intro st st2 h
    rw [btester.closeLoop] at h
    split at h
    · rcases hI : btester.closeInner st price p with es | r <;> rw [hI] at h
      · cases h
      · obtain ⟨l1, hl1⟩ := btester_closeInner_trades st price p r.1 r.2 (by rw [hI])
        obtain ⟨l2, hl2⟩ := ih r.2 st2 h
        exact ⟨l1 ++ l2, by rw [hl2, hl1, List.append_assoc]⟩
    · obtain ⟨l2, hl2⟩ := ih st st2 h
      exact ⟨l2, hl2⟩

/-! Claim C6. -/

/-- C6: every trade appended by a successful explicit close satisfies the
commission and cumulative-return invariants, snapshots the final state of
the closed position (with close price equal to the price argument), and the
trade log is append-only: open never touches it and close only appends. -/
theorem c6_trade_record_invariant :
    (∀ (st : State) (price : EF) (symbol : Option String) (p : Position) (st2 : State),
       btester.Strategy.close st price symbol (some p) = .ok (true, st2) →
       ∃ t p2, btester.Position.update p st.date price = .ok p2 ∧
         st2.trades = st.trades ++ [t] ∧
         t.trade_commission = ((t.open_price.add t.close_price).mul t.position_size).mul
           st.commission ∧
         t.cumulative_return = st.cumulative_return.add (t.profit_loss.sub t.trade_commission) ∧
         st2.cumulative_return = t.cumulative_return ∧
         t.symbol = p2.symbol ∧ t.open_date = p2.open_date ∧ t.close_date = p2.last_date ∧
         t.open_price = p2.open_price ∧ t.close_price = price ∧
         t.position_size = p2.position_size ∧ t.profit_loss = p2.profit_loss ∧
         t.change_pct = p2.change_pct)
    ∧ (∀ (st : State) (price : EF) (size : Option EF) (symbol : Option String)
         (b : Bool) (st2 : State),
       btester.Strategy.opn st price size symbol = .ok (b, st2) → st2.trades = st.trades)
    ∧ (∀ (st : State) (price : EF) (symbol : Option String) (pos : Option Position)
         (b : Bool) (st2 : State),
       btester.Strategy.close st price symbol pos = .ok (b, st2) →
       ∃ l, st2.trades = st.trades ++ l) := by
  refine ⟨?_, ?_, ?_⟩
  · intro st price symbol p st2 h
    simp only [btester.Strategy.close, btester.closeInner] at h
    split at h
    · cases h
    · rcases hE : btester.closeExplicit st price p with es | s2 <;> rw [hE] at h
      · cases h
      · simp only [Except.map, Except.ok.injEq, Prod.mk.injEq, true_and] at h
        subst h
        obtain ⟨p2, lst, hupd, hrem, hshape⟩ := btester_closeExplicit_ok_shape st price p s2 hE
        obtain ⟨-, -, -, -, -, hlp, -, -⟩ := btester_update_ok_shape _ _ _ _ hupd
        exact ⟨mkTrade p2 st.commission st.cumulative_return, p2, hupd,
          by rw [hshape], rfl, rfl, by rw [hshape], rfl, rfl, rfl, rfl,
          by simp [mkTrade, hlp], rfl, rfl, rfl⟩
  · intro st price size symbol b st2 h
    revert h
    simp only [btester.Strategy.opn]
    split
    · intro h; cases h; rfl
    · split
      · intro h; cases h
      · split
        · intro h; cases h; rfl
        · split
          · intro h; cases h
          · intro h; cases h; rfl
  · intro st price symbol pos b st2 h
    cases pos with
    | some p => exact btester_closeInner_trades st price p b st2 h
    | none =>
      revert h
      simp only [btester.Strategy.close]
      split
      · intro h; cases h; exact ⟨[], by simp⟩
      · intro h
        rcases hL : btester.closeLoop price symbol st.open_positions st with es | s2 <;>
          rw [hL] at h
        · cases h
        · simp only [Except.map, Except.ok.injEq, Prod.mk.injEq] at h
          obtain ⟨l, hl⟩ := btester_closeLoop_trades price symbol st.open_positions st s2 hL
          exact ⟨l, by rw [← h.2, hl]⟩

/-- Witness for C6: the trade produced by closing posW from stP at price
200. -/
theorem c6_trade_record_invariant_witness :
    ∃ t p2, btester.Position.update posW stP.date (EF.val 200) = .ok p2 ∧
      stCloseW.trades = stP.trades ++ [t] ∧
      t.trade_commission = ((t.open_price.add t.close_price).mul t.position_size).mul
        stP.commission ∧
      t.cumulative_return = stP.cumulative_return.add (t.profit_loss.sub t.trade_commission) ∧
      stCloseW.cumulative_return = t.cumulative_return ∧
      t.symbol = p2.symbol ∧ t.open_date = p2.open_date ∧ t.close_date = p2.last_date ∧
      t.open_price = p2.open_price ∧ t.close_price = EF.val 200 ∧
      t.position_size = p2.position_size ∧ t.profit_loss = p2.profit_loss ∧
      t.change_pct = p2.change_pct :=
  c6_trade_record_invariant.1 stP (EF.val 200) none posW stCloseW
    (by norm_num [btester.Strategy.close, btester.closeInner, btester.closeExplicit,
      btester.Position.update, EF.div, Except.map, replaceFirst, removeFirst,
      stP, stW, posW, posW2, stCloseW, btester.Strategy.initState])

/-- replaceFirst does nothing when the element is absent. -/
theorem replaceFirst_not_mem (a b : Position) (l : List Position) (h : a ∉ l) :
    replaceFirst a b l = l := by
  induction l with
  | nil => rfl
  | cons x xs ih =>
    simp only [List.mem_cons, not_or] at h
    rw [replaceFirst, if_neg (fun hx => h.1 hx.symm), ih h.2]

/-- removeFirst fails when the element is absent. -/
theorem removeFirst_not_mem (a : Position) (l : List Position) (h : a ∉ l) :
    removeFirst a l = none := by
  induction l with
  | nil => rfl
  | cons x xs ih =>
    simp only [List.mem_cons, not_or] at h
    rw [removeFirst, if_neg (fun hx => h.1 hx.symm), ih h.2]
    rfl

/-! Claim C10. -/

/-- C10: close with a valid price and an explicit position handle that is
not in the open set raises ValueError from the removal step, after having
already debited the mark-to-market accumulator by the handle's stale value,
advanced the cumulative return, and appended a Trade built from the updated
handle; cash and the open-position list are left unchanged, and the failure
is an exception, not a false return. -/
theorem c10_close_foreign_handle_raises_after_partial_mutation
    (st : State) (q : ℚ) (symbol : Option String) (p p2 : Position)
    (hq : 0 < q)
    (hupd : btester.Position.update p st.date (EF.val q) = .ok p2)
    (hp : p ∉ st.open_positions) (hp2 : p2 ∉ st.open_positions) :
    ∃ stE, btester.Strategy.close st (EF.val q) symbol (some p) = .error (.valueError, stE) ∧
      stE.cash = st.cash ∧
      stE.open_positions = st.open_positions ∧
      stE.cash_stock_value = st.cash_stock_value.sub p.current_value ∧
      stE.cumulative_return = st.cumulative_return.add (p2.profit_loss.sub
        (((p2.open_price.add p2.last_price).mul p2.position_size).mul st.commission)) ∧
      stE.trades = st.trades ++ [mkTrade p2 st.commission st.cumulative_return] := by
  have hrep : replaceFirst p p2 st.open_positions = st.open_positions :=
    replaceFirst_not_mem p p2 st.open_positions hp
  have hrem : removeFirst p2 (replaceFirst p p2 st.open_positions) = none := by
    rw [hrep]
    exact removeFirst_not_mem p2 st.open_positions hp2
  have hshape := btester_closeExplicit_valueError_shape st (EF.val q) p p2 hupd hrem
  refine ⟨{ st with
      cash_stock_value := st.cash_stock_value.sub p.current_value,
      open_positions := replaceFirst p p2 st.open_positions,
      cumulative_return := (mkTrade p2 st.commission st.cumulative_return).cumulative_return,
      trades := st.trades ++ [mkTrade p2 st.commission st.cumulative_return] },
    ?_, rfl, hrep, rfl, rfl, rfl⟩
  simp only [btester.Strategy.close, btester.closeInner, EF.isnan_val, EF.le_val_val,
    hq.not_le, decide_False, Bool.or_false, Bool.false_or, if_false, ite_false, if_neg,
    Bool.false_eq_true, not_false_eq_true, hshape, Except.map]

/-- Witness for C10: closing the foreign handle posW against stW, whose
open set is empty, raises ValueError with the partially mutated state. -/
theorem c10_close_foreign_handle_raises_after_partial_mutation_witness :
    ∃ stE, btester.Strategy.close stW (EF.val 150) none (some posW)
        = .error (.valueError, stE) ∧
      stE.cash = stW.cash ∧
      stE.open_positions = stW.open_positions ∧
      stE.cash_stock_value = stW.cash_stock_value.sub posW.current_value ∧
      stE.cumulative_return = stW.cumulative_return.add (posW150.profit_loss.sub
        (((posW150.open_price.add posW150.last_price).mul posW150.position_size).mul
          stW.commission)) ∧
      stE.trades = stW.trades ++ [mkTrade posW150 stW.commission stW.cumulative_return] :=
  c10_close_foreign_handle_raises_after_partial_mutation stW 150 none posW posW150
    (by norm_num)
    (by norm_num [btester.Position.update, EF.div, posW, posW150, stW, btester.Strategy.initState])
    (by simp [stW, btester.Strategy.initState])
    (by simp [stW, btester.Strategy.initState])

/-! Claim C3. -/

/-- C3, amended: during the per-step mark-to-market, when the closing-price
lookup (per-instrument key, else the shared Close key) yields a value that
is not strictly positive (zero, negative, or NaN, which is how pandas
records a missing observation), the position keeps all its previously
computed fields and no error is raised; the position is updated exactly
when the looked-up value is positive; and when both keys are absent from
the record the lookup itself raises KeyError with the position untouched. -/
theorem c3_mark_tolerance_amended (d : Option Date) (r : Record) (p : Position) :
    (∀ v, btester.lookupClose r p.symbol = .ok v → (EF.val 0).lt v = false →
       btester.markOne d r p = .ok p)
    ∧ (∀ v, btester.lookupClose r p.symbol = .ok v → (EF.val 0).lt v = true →
       btester.markOne d r p = btester.Position.update p d v)
    ∧ (∀ e, btester.lookupClose r p.symbol = .error e →
       btester.markOne d r p = .error (e, p)) := by
  refine ⟨?_, ?_, ?_⟩
  · intro v hv hlt
    simp [btester.markOne, hv, hlt]
  · intro v hv hlt
    simp [btester.markOne, hv, hlt]
  · intro e he
    simp [btester.markOne, he]

/-- Counterexample to C3 as stated: a record providing no closing price
under either key makes the mark-to-market lookup raise KeyError instead of
silently retaining the position's previous fields. -/
theorem c3_missing_key_counterexample :
    btester.markOne none recNone posW = .error (.keyError, posW) ∧
    ∀ p2, btester.markOne none recNone posW ≠ .ok p2 := by
  constructor
  · rfl
  · intro p2 h
    rw [show btester.markOne none recNone posW = .error (.keyError, posW) from rfl] at h
    cases h

/-- Witness for the amended C3: a shared closing price of zero leaves posW
untouched. -/
theorem c3_mark_tolerance_amended_witness :
    btester.markOne none (recClose 0) posW = .ok posW :=
  (c3_mark_tolerance_amended none (recClose 0) posW).1 (EF.val 0) rfl rfl

/-- The two packages' filter loops agree. -/
theorem btlib_closeLoop_eq (price : EF) (symbol : Option String) :
    ∀ (ps : List Position) (st : State),
      btester.closeLoop price symbol ps st = btlib.closeLoop price symbol ps st := by
  intro ps
  induction ps with
  | nil => intro st; rfl
  | cons p ps ih =>
    intro st
    rw [btester.closeLoop, btlib.closeLoop]
    rw [show btlib.closeInner st price p = btester.closeInner st price p from rfl]
    split
    · rcases btester.closeInner st price p with es | r
      · rfl
      · exact ih r.2
    · exact ih st

/-- The two packages' per-step marking loops agree. -/
theorem btlib_markAll_eq (d : Option Date) (r : Record) :
    ∀ ps : List Position, btester.markAll d r ps = btlib.markAll d r ps := by
  intro ps
  induction ps with
  | nil => rfl
  | cons p ps ih =>
    rw [btester.markAll, btlib.markAll]
    rw [show btlib.markOne d r p = btester.markOne d r p from rfl]
    rw [← ih]

/-- The two packages' step bodies agree. -/
theorem btlib_step_eq (hook : Nat → Record → State → State) (index : List Date)
    (i : Nat) (r : Record) (st : State) :
    btester.step hook index i r st = btlib.step hook index i r st := by
  simp only [btester.step, btlib.step]
  cases index[i]? with
  | none => rfl
  | some d =>
    dsimp only
    rw [← btlib_markAll_eq]
    rfl

/-- The two packages' run loops agree. -/
theorem btlib_runSteps_eq (hook : Nat → Record → State → State) (index : List Date) :
    ∀ (rs : List Record) (i : Nat) (st : State),
      btester.runSteps hook index rs i st = btlib.runSteps hook index rs i st := by
  intro rs
  induction rs with
  | nil => intro i st; rfl
  | cons r rs ih =>
    intro i st
    rw [btester.runSteps, btlib.runSteps]
    rw [← btlib_step_eq hook index i r st]
    rcases btester.step hook index i r st with es | st2
    · rfl
    · exact ih (i + 1) st2

/-! Claim C8. -/

/-- C8: the core operations of the btester package and of the btlib package
are extensionally equal: position update, open, close, the run loop, eval
and the driver entry point return the same value on every state and
argument list. -/
theorem c8_duplicate_package_equivalence :
    (∀ (p : Position) (d : Option Date) (lp : EF),
       btester.Position.update p d lp = btlib.Position.update p d lp)
    ∧ (∀ (st : State) (price : EF) (size : Option EF) (symbol : Option String),
       btester.Strategy.opn st price size symbol = btlib.Strategy.opn st price size symbol)
    ∧ (∀ (st : State) (price : EF) (symbol : Option String) (pos : Option Position),
       btester.Strategy.close st price symbol pos = btlib.Strategy.close st price symbol pos)
    ∧ (∀ (hook : Nat → Record → State → State) (index : List Date) (rs : List Record)
         (i : Nat) (st : State),
       btester.runSteps hook index rs i st = btlib.runSteps hook index rs i st)
    ∧ (∀ (initHook : State → State) (nextHook : Nat → Record → State → State)
         (records : List Record) (index : List Date) (st : State),
       btester.Strategy.eval initHook nextHook records index st
         = btlib.Strategy.eval initHook nextHook records index st)
    ∧ (∀ (bt : Backtest) (initHook : State → State)
         (nextHook : Nat → Record → State → State),
       btester.Backtest.run bt initHook nextHook = btlib.Backtest.run bt initHook nextHook) :=
  by
  refine ⟨fun _ _ _ => rfl, fun _ _ _ _ => rfl, ?_, ?_, ?_, ?_⟩
  · intro st price symbol pos
    cases pos with
    | some p => rfl
    | none =>
      simp only [btester.Strategy.close, btlib.Strategy.close]
      rw [btlib_closeLoop_eq price symbol st.open_positions st]
  · intro hook index rs i st
    exact btlib_runSteps_eq hook index rs i st
  · intro initHook nextHook records index st
    simp only [btester.Strategy.eval, btlib.Strategy.eval]
    rw [btlib_runSteps_eq]
  · intro bt initHook nextHook
    simp only [btester.Backtest.run, btlib.Backtest.run, btester.Strategy.eval,
      btlib.Strategy.eval, btester.Strategy.initState, btlib.Strategy.initState]
    rw [btlib_runSteps_eq]

/-- Inversion of a successful step: the index provided the date, marking
succeeded, and the post state appends exactly one equity entry. -/
theorem btester_step_ok_shape (hook : Nat → Record → State → State) (index : List Date)
    (i : Nat) (r : Record) (st stm : State)
    (h : btester.step hook index i r st = .ok stm) :
    ∃ d ps, index[i]? = some d ∧
      btester.markAll (hook i r { st with date := some d }).date r
        (hook i r { st with date := some d }).open_positions = .ok ps ∧
      stm = { hook i r { st with date := some d } with
              open_positions := ps,
              cash_stock_value := btester.sumCurrentValue ps,
              returns := (hook i r { st with date := some d }).returns
                ++ [(hook i r { st with date := some d }).cash.add
                      (btester.sumCurrentValue ps)] } := by
  revert h
  simp only [btester.step]
  cases index[i]? with
  | none => intro h; cases h
  | some d =>
    dsimp only
    split
    · intro h; cases h
    · rename_i ps hmark
      intro h; cases h
      exact ⟨d, ps, rfl, hmark, rfl⟩

/-- A successful step appends exactly one entry, the post-step equity, to
the returns series, provided the decision hook leaves the series alone. -/
theorem btester_step_ok_returns (hook : Nat → Record → State → State) (index : List Date)
    (i : Nat) (r : Record) (st stm : State)
    (hhook : ∀ j rr s, (hook j rr s).returns = s.returns)
    (h : btester.step hook index i r st = .ok stm) :
    stm.returns = st.returns
      ++ [stm.cash.add (btester.sumCurrentValue stm.open_positions)] := by
  obtain ⟨d, ps, hd, hmark, hshape⟩ := btester_step_ok_shape hook index i r st stm h
  rw [hshape]
  simp only [hhook]

/-- A successful run of the loop from any start produces the trajectory of
post-step states, one equity entry appended per step in order. -/
theorem btester_runSteps_chain (hook : Nat → Record → State → State) (index : List Date)
    (hhook : ∀ j rr s, (hook j rr s).returns = s.returns) :
    ∀ (rs : List Record) (i : Nat) (st st2 : State),
      btester.runSteps hook index rs i st = .ok st2 →
      ∃ sts : List State, stepChain hook index i rs st sts ∧
        sts.length = rs.length ∧
        st2.returns = st.returns
          ++ sts.map (fun s => s.cash.add (btester.sumCurrentValue s.open_positions)) := by
  intro rs
  induction rs with
  | nil =>
    intro i st st2 h
    cases h
    exact ⟨[], rfl, rfl, by simp⟩
  | cons r rs ih =>
    intro i st st2 h
    rw [btester.runSteps] at h
    rcases hs : btester.step hook index i r st with es | stm <;> rw [hs] at h
    · cases h
    · obtain ⟨sts, hchain, hlen, hret⟩ := ih (i + 1) stm st2 h
      refine ⟨stm :: sts, ⟨hs, hchain⟩, by simp [hlen], ?_⟩
      rw [hret, btester_step_ok_returns hook index i r st stm hhook hs]
      simp

/-! Claim C7. -/

/-- C7: a successful run visits every record in order, each step's state
arising from the previous one by the step function (which sets the date,
runs the decision hook strictly before marking to market), appends exactly
one equity entry per step equal to cash plus the summed current value of
the positions open after that step, and returns the series aligned with
the original timestamp index.  The decision and init hooks are assumed not
to touch the returns series themselves, and the engine starts with an
empty series, as Backtest.run arranges. -/
theorem c7_run_loop_equity_series
    (initHook : State → State) (nextHook : Nat → Record → State → State)
    (records : List Record) (index : List Date) (st : State) (res : Result)
    (hinit : ∀ s, (initHook s).returns = s.returns)
    (hhook : ∀ i r s, (nextHook i r s).returns = s.returns)
    (hempty : st.returns = [])
    (hrun : btester.Strategy.eval initHook nextHook records index st = .ok res) :
    res.returnsIndex = index ∧
    res.returnsData.length = records.length ∧
    ∃ sts : List State,
      stepChain nextHook index 0 records
        (initHook { st with cumulative_return := st.cash, cash_stock_value := EF.val 0 }) sts ∧
      sts.length = records.length ∧
      res.returnsData
        = sts.map (fun s => s.cash.add (btester.sumCurrentValue s.open_positions)) := by
  simp only [btester.Strategy.eval] at hrun
  rcases hr : btester.runSteps nextHook index records 0
      (initHook { st with cumulative_return := st.cash, cash_stock_value := EF.val 0 })
    with es | st1 <;> rw [hr] at hrun
  · cases hrun
  · obtain ⟨sts, hchain, hlen, hret⟩ :=
      btester_runSteps_chain nextHook index hhook records 0 _ st1 hr
    dsimp only at hrun
    split at hrun
    · cases hrun
      refine ⟨rfl, ?_, sts, hchain, hlen, ?_⟩
      · rw [hret, hinit, hempty]
        simp [hlen]
      · rw [hret, hinit, hempty]
        simp
    · cases hrun

/-- Witness for C7: a one-step run from stW with trivial hooks yields one
equity entry 10000 aligned to the single timestamp 3. -/
theorem c7_run_loop_equity_series_witness :
    resW.returnsIndex = [3] ∧
    resW.returnsData.length = [recClose 50].length ∧
    ∃ sts : List State,
      stepChain (fun _ _ s => s) [3] 0 [recClose 50]
        ((fun s => s) { stW with cumulative_return := stW.cash,
                                 cash_stock_value := EF.val 0 }) sts ∧
      sts.length = [recClose 50].length ∧
      resW.returnsData
        = sts.map (fun s => s.cash.add (btester.sumCurrentValue s.open_positions)) :=
  c7_run_loop_equity_series (fun s => s) (fun _ _ s => s) [recClose 50] [3] stW resW
    (fun _ => rfl) (fun _ _ _ => rfl) rfl
    (by norm_num [btester.Strategy.eval, btester.runSteps, btester.step, btester.markAll,
      btester.sumCurrentValue, stW, btester.Strategy.initState, recClose, resW])

/-- Position.update keeps the identifying key. -/
theorem btester_update_posKey (p : Position) (d : Option Date) (lp : EF) (p2 : Position)
    (h : btester.Position.update p d lp = .ok p2) : posKey p2 = posKey p := by
  obtain ⟨h1, h2, h3, h4, -, -, -, -⟩ := btester_update_ok_shape p d lp p2 h
  simp [posKey, h1, h2, h3, h4]

/-- Position.update succeeds at a real price whenever the open price is not
the real zero (a NaN open price merely propagates NaN). -/
theorem btester_update_ok_of_ne_zero (p : Position) (d : Option Date) (q : ℚ)
    (h : p.open_price ≠ EF.val 0) :
    ∃ p2, btester.Position.update p d (EF.val q) = .ok p2 := by
  cases hop : p.open_price with
  | nan =>
    exact ⟨_, by simp only [btester.Position.update, hop]; exact rfl⟩
  | val po =>
    have hpo : po ≠ 0 := fun hh => h (by rw [hop, hh])
    exact ⟨_, by
      simp only [btester.Position.update, hop, EF.div_val_ne_zero (EF.val q) po hpo]
      exact rfl⟩

/-- Removing an element sitting after a prefix that does not contain it. -/
theorem removeFirst_append_cons (p : Position) (pre rest : List Position) (hp : p ∉ pre) :
    removeFirst p (pre ++ p :: rest) = some (pre ++ rest) := by
  induction pre with
  | nil => simp [removeFirst]
  | cons x xs ih =>
    simp only [List.mem_cons, not_or] at hp
    rw [List.cons_append, removeFirst, if_neg (fun hx => hp.1 hx.symm), ih hp.2]
    rfl

/-- When p occurs in the list, no other element shares its key, and the
replacement p2 has the same key, removing p2 after replacing p by p2 is the
same as removing p directly. -/
theorem removeFirst_replaceFirst (p p2 : Position) (L : List Position)
    (hmem : p ∈ L) (huniq : ∀ x ∈ L, posKey x = posKey p → x = p)
    (hkey : posKey p2 = posKey p) :
    removeFirst p2 (replaceFirst p p2 L) = removeFirst p L := by
  induction L with
  | nil => cases hmem
  | cons x xs ih =>
    by_cases hx : x = p
    · subst hx
      rw [replaceFirst, if_pos rfl, removeFirst, if_pos rfl, removeFirst, if_pos rfl]
    · have hxk : posKey x ≠ posKey p := fun hk => hx (huniq x (List.mem_cons_self x xs) hk)
      have hx2 : x ≠ p2 := fun he => hxk (he ▸ hkey)
      have hmem' : p ∈ xs := by
        rcases List.mem_cons.mp hmem with h | h
        · exact absurd h.symm hx
        · exact h
      rw [replaceFirst, if_neg hx, removeFirst, if_neg hx2, removeFirst, if_neg hx,
        ih hmem' (fun y hy hk => huniq y (List.mem_cons_of_mem x hy) hk)]

/-- Forward evaluation of a successful explicit close. -/
theorem btester_closeExplicit_ok_fwd (st : State) (price : EF) (p p2 : Position)
    (lst : List Position)
    (hupd : btester.Position.update p st.date price = .ok p2)
    (hrem : removeFirst p2 (replaceFirst p p2 st.open_positions) = some lst) :
    btester.closeExplicit st price p = .ok { st with
      cash_stock_value := st.cash_stock_value.sub p.current_value,
      open_positions := lst,
      cumulative_return := (mkTrade p2 st.commission st.cumulative_return).cumulative_return,
      trades := st.trades ++ [mkTrade p2 st.commission st.cumulative_return],
      cash := st.cash.add (p2.current_value.sub
        ((p2.last_price.mul p2.position_size).mul st.commission)) } := by
  simp only [btester.closeExplicit, hupd, hrem]
  rfl

/-- Behaviour of the close filter loop over a snapshot suffix rest, when the
engine's open set is pre ++ rest, pre contains only non-matching positions,
the identifying keys are pairwise distinct, and no matching position has a
real zero open price: one trade per matching element of rest, in order,
non-matching positions untouched. -/
theorem btester_closeLoop_spec (q : ℚ) (hq : 0 < q) (symbol : Option String) :
    ∀ (rest pre : List Position) (st : State),
      st.open_positions = pre ++ rest →
      ((pre ++ rest).map posKey).Nodup →
      (∀ x ∈ pre, ¬ x.symbol = symbol) →
      (∀ x ∈ rest, x.symbol = symbol → x.open_price ≠ EF.val 0) →
      ∃ st2 ts,
        btester.closeLoop (EF.val q) symbol rest st = .ok st2 ∧
        st2.open_positions = pre ++ rest.filter (fun x => !decide (x.symbol = symbol)) ∧
        st2.trades = st.trades ++ ts ∧
        st2.commission = st.commission ∧
        List.Forall₂ (fun (x : Position) (t : Trade) =>
            t.symbol = x.symbol ∧ t.open_price = x.open_price ∧ t.close_price = EF.val q ∧
            t.position_size = x.position_size ∧
            t.trade_commission = ((x.open_price.add (EF.val q)).mul x.position_size).mul
              st.commission)
          (rest.filter (fun x => decide (x.symbol = symbol))) ts := by
  intro rest
  induction rest with
  | nil =>
    intro pre st hst hnd hpre hrest
    exact ⟨st, [], rfl, by simpa using hst, by simp, rfl, by simp⟩
  | cons p rest ih =>
    intro pre st hst hnd hpre hrest
    by_cases hmatch : p.symbol = symbol
    · obtain ⟨p2, hupd⟩ := btester_update_ok_of_ne_zero p st.date q
        (hrest p (List.mem_cons_self p rest) hmatch)
      obtain ⟨hsy, hod, hopn, hps, -, hlp, -, -⟩ :=
        btester_update_ok_shape p st.date (EF.val q) p2 hupd
      have hkey := btester_update_posKey p st.date (EF.val q) p2 hupd
      have hpmem : p ∈ st.open_positions := by
        rw [hst]
        exact List.mem_append_right pre (List.mem_cons_self p rest)
      have hpnotpre : p ∉ pre := fun hmem => hpre p hmem hmatch
      have huniq : ∀ x ∈ st.open_positions, posKey x = posKey p → x = p := by
        rw [hst]
        intro x hx hk
        exact List.inj_on_of_nodup_map hnd hx
          (List.mem_append_right pre (List.mem_cons_self p rest)) hk
      have hrem : removeFirst p2 (replaceFirst p p2 st.open_positions)
          = some (pre ++ rest) := by
        rw [removeFirst_replaceFirst p p2 st.open_positions hpmem huniq hkey, hst,
          removeFirst_append_cons p pre rest hpnotpre]
      have hfwd := btester_closeExplicit_ok_fwd st (EF.val q) p p2 (pre ++ rest) hupd hrem
      have hnd2 : ((pre ++ rest).map posKey).Nodup := by
        refine List.Nodup.sublist (List.Sublist.map posKey ?_) hnd
        exact List.Sublist.append_left (List.sublist_cons_self p rest) pre
      obtain ⟨st2, ts, hloop, hopen2, htr2, hcomm2, hfa2⟩ := ih pre
        { st with
          cash_stock_value := st.cash_stock_value.sub p.current_value,
          open_positions := pre ++ rest,
          cumulative_return := (mkTrade p2 st.commission st.cumulative_return).cumulative_return,
          trades := st.trades ++ [mkTrade p2 st.commission st.cumulative_return],
          cash := st.cash.add (p2.current_value.sub
            ((p2.last_price.mul p2.position_size).mul st.commission)) }
        rfl hnd2 hpre (fun x hx hsym => hrest x (List.mem_cons_of_mem p hx) hsym)
      refine ⟨st2, mkTrade p2 st.commission st.cumulative_return :: ts, ?_, ?_, ?_, ?_, ?_⟩
      · rw [btester.closeLoop]
        rw [if_pos hmatch]
        have hinner : btester.closeInner st (EF.val q) p = .ok (true,
            { st with
              cash_stock_value := st.cash_stock_value.sub p.current_value,
              open_positions := pre ++ rest,
              cumulative_return :=
                (mkTrade p2 st.commission st.cumulative_return).cumulative_return,
              trades := st.trades ++ [mkTrade p2 st.commission st.cumulative_return],
              cash := st.cash.add (p2.current_value.sub
                ((p2.last_price.mul p2.position_size).mul st.commission)) }) := by
          rw [btester.closeInner, if_neg (by simp [hq.not_le]), hfwd]
          rfl
        rw [hinner]
        exact hloop
      · rw [hopen2]
        simp [hmatch]
      · rw [htr2]
        simp [List.append_assoc]
      · rw [hcomm2]
      · have hfe : (p :: rest).filter (fun x => decide (x.symbol = symbol))
            = p :: rest.filter (fun x => decide (x.symbol = symbol)) := by
          simp [List.filter, hmatch]
        rw [hfe]
        exact List.Forall₂.cons
          ⟨by simp [mkTrade, hsy], by simp [mkTrade, hopn], by simp [mkTrade, hlp],
           by simp [mkTrade, hps], by simp [mkTrade, hopn, hlp, hps]⟩ hfa2
    · have hassoc : st.open_positions = (pre ++ [p]) ++ rest := by
        rw [hst]
        simp
      have hnd2 : (((pre ++ [p]) ++ rest).map posKey).Nodup := by
        simpa using hnd
      obtain ⟨st2, ts, hloop, hopen2, htr2, hcomm2, hfa2⟩ := ih (pre ++ [p]) st hassoc hnd2
        (by
          intro x hx
          rcases List.mem_append.mp hx with h | h
          · exact hpre x h
          · rw [List.mem_singleton.mp h]
            exact hmatch)
        (fun x hx hsym => hrest x (List.mem_cons_of_mem p hx) hsym)
      refine ⟨st2, ts, ?_, ?_, htr2, hcomm2, ?_⟩
      · rw [btester.closeLoop, if_neg hmatch]
        exact hloop
      · rw [hopen2]
        simp [hmatch]
      · have hfe : (p :: rest).filter (fun x => decide (x.symbol = symbol))
            = rest.filter (fun x => decide (x.symbol = symbol)) := by
          simp [List.filter, hmatch]
        rw [hfe]
        exact hfa2

/-! Claim C5. -/

/-- C5: close by instrument filter.  With a positive real price, pairwise
distinct position keys and no matching position opened at a real zero
price, closing with a symbol and no explicit position closes every open
position whose symbol matches, appending exactly one trade per matched
position in snapshot order, each with its own commission computed from its
own open price and size; non-matching positions are untouched; and the call
returns true even when zero positions matched. -/
theorem c5_close_by_instrument_filter
    (st : State) (q : ℚ) (symbol : Option String) (hq : 0 < q)
    (hnd : (st.open_positions.map posKey).Nodup)
    (hop : ∀ x ∈ st.open_positions, x.symbol = symbol → x.open_price ≠ EF.val 0) :
    ∃ st2 ts,
      btester.Strategy.close st (EF.val q) symbol none = .ok (true, st2) ∧
      st2.open_positions = st.open_positions.filter (fun x => !decide (x.symbol = symbol)) ∧
      st2.trades = st.trades ++ ts ∧
      ts.length = (st.open_positions.filter (fun x => decide (x.symbol = symbol))).length ∧
      List.Forall₂ (fun (x : Position) (t : Trade) =>
          t.symbol = x.symbol ∧ t.open_price = x.open_price ∧ t.close_price = EF.val q ∧
          t.position_size = x.position_size ∧
          t.trade_commission = ((x.open_price.add (EF.val q)).mul x.position_size).mul
            st.commission)
        (st.open_positions.filter (fun x => decide (x.symbol = symbol))) ts := by
  obtain ⟨st2, ts, hloop, hopen2, htr2, hcomm2, hfa⟩ :=
    btester_closeLoop_spec q hq symbol st.open_positions [] st (by simp)
      (by simpa using hnd) (by intro x hx; cases hx) hop
  refine ⟨st2, ts, ?_, by simpa using hopen2, htr2, hfa.length_eq.symm, hfa⟩
  simp only [btester.Strategy.close]
  rw [if_neg (by simp [hq.not_le]), hloop]
  rfl

/-- Witness for C5 at a concrete input exercising the zero-matched quirk:
closing symbol B against stP, whose only position is on symbol A, matches
nothing, appends nothing, and still returns true. -/
theorem c5_close_by_instrument_filter_witness :
    ∃ st2 ts,
      btester.Strategy.close stP (EF.val 10) (some "B") none = .ok (true, st2) ∧
      st2.open_positions
        = stP.open_positions.filter (fun x => !decide (x.symbol = some "B")) ∧
      st2.trades = stP.trades ++ ts ∧
      ts.length = (stP.open_positions.filter (fun x => decide (x.symbol = some "B"))).length ∧
      List.Forall₂ (fun (x : Position) (t : Trade) =>
          t.symbol = x.symbol ∧ t.open_price = x.open_price ∧ t.close_price = EF.val 10 ∧
          t.position_size = x.position_size ∧
          t.trade_commission = ((x.open_price.add (EF.val 10)).mul x.position_size).mul
            stP.commission)
        (stP.open_positions.filter (fun x => decide (x.symbol = some "B"))) ts :=
  c5_close_by_instrument_filter stP 10 (some "B") (by norm_num) (by decide) (by decide)
